import Mathlib

/-!
Verification development for the alive2 translation-validation core.

The SMT term layer (`smt::expr`, wrapped around Z3 and not part of the core
sources) is modelled as a deep embedding `Expr` with an evaluation semantics
over assignments of the free bit-vector symbols.  On top of it we embed, from
the sources:

* `src/tools/transform.cpp`: `check_refinement` and `Transform::verify`;
* `src/ir/constant.cpp`: constant folding (`Constant::toSMT`,
  `ConstantBinOp::toSMT_cnst`, `div_ub`, `ConstantFn::ConstantFn`);
* `src/ir/type.cpp`: the type hierarchy, `getTypeConstraints`,
  `operator==` and `fixup`;
* `src/tools/alive_parser.cpp`: `parse_operand` and the identifier table.

Parts of the program whose sources are outside the provided tree (the
symbolic executor `util/symexec`, `ir/state`, and the Z3 facade) are
modelled from the specification; each such definition is marked
`Modelled from the spec:` in its documentation.
-/

/-- A value of the SMT term algebra: either a boolean or a bit-vector of a
given width.  Bit-vector payloads are kept reduced modulo `2 ^ width`. -/
inductive SmtVal where
  | b (val : Bool)
  | bv (w : Nat) (val : Nat)
deriving DecidableEq, Repr

/-- Binary bit-vector arithmetic operators of the term layer
(`smt/expr.h`: `+ - * sdiv udiv shl lshr ashr`). -/
inductive BvOp where
  | add | sub | mul | udiv | sdiv | shl | lshr | ashr
deriving DecidableEq, Repr

/-- Binary bit-vector predicates of the term layer: equality, unsigned
less-or-equal, and the no-overflow predicates used by poison tracking
(spec 4.4: no-signed-overflow / no-unsigned-overflow per operation). -/
inductive BvPred where
  | eq | ule
  | noSWrapAdd | noUWrapAdd
  | noSWrapSub | noUWrapSub
  | noSWrapMul | noUWrapMul
deriving DecidableEq, Repr

/-- Deep embedding of the term algebra of `smt::expr` (spec 4.1): boolean and
bit-vector constants, free bit-vector symbols, boolean connectives,
bit-vector arithmetic, predicates, and ITE.  `null` is the default-constructed
invalid `expr()` (used by the unimplemented constant folders). -/
inductive Expr where
  | null
  | boolC (val : Bool)
  | bvC (w : Nat) (val : Nat)
  | var (name : String) (w : Nat)
  | notE (e : Expr)
  | andE (a b : Expr)
  | orE (a b : Expr)
  | bvop (o : BvOp) (a b : Expr)
  | pred (p : BvPred) (a b : Expr)
  | iteE (c t e : Expr)
deriving DecidableEq, Repr

/-- Interpret a reduced bit-vector payload as a signed integer
(two's complement at width `w`). -/
def toSInt (w v : Nat) : Int :=
  if v < 2 ^ (w - 1) then (v : Int) else (v : Int) - (2 ^ w : Nat)

/-- Reduce an integer to a bit-vector payload at width `w`. -/
def ofSInt (w : Nat) (i : Int) : Nat :=
  (i % (2 ^ w : Nat)).toNat

/-- Semantics of the bit-vector arithmetic operators at width `w`.
Division by zero follows SMT-LIB (`bvudiv x 0` is all-ones, `bvsdiv x 0`
is `1` for negative `x` and `-1` otherwise); shifts saturate to the usual
wrap-around semantics. -/
def BvOp.eval : BvOp → Nat → Nat → Nat → Nat
  | .add, w, a, b => (a + b) % 2 ^ w
  | .sub, w, a, b => (a + (2 ^ w - b)) % 2 ^ w
  | .mul, w, a, b => (a * b) % 2 ^ w
  | .udiv, w, a, b => if b = 0 then 2 ^ w - 1 else (a / b) % 2 ^ w
  | .sdiv, w, a, b =>
      if b = 0 then (if toSInt w a < 0 then 1 % 2 ^ w else 2 ^ w - 1)
      else ofSInt w (Int.tdiv (toSInt w a) (toSInt w b))
  | .shl, w, a, b => (a <<< b) % 2 ^ w
  | .lshr, _, a, b => a >>> b
  | .ashr, w, a, b => ofSInt w ((toSInt w a) >>> b)

/-- Semantics of the bit-vector predicates at width `w` on reduced
payloads. -/
def BvPred.eval : BvPred → Nat → Nat → Nat → Bool
  | .eq, _, a, b => a == b
  | .ule, _, a, b => a ≤ b
  | .noSWrapAdd, w, a, b =>
      decide (-(2 ^ (w - 1) : Int) ≤ toSInt w a + toSInt w b ∧
              toSInt w a + toSInt w b < 2 ^ (w - 1))
  | .noUWrapAdd, w, a, b => a + b < 2 ^ w
  | .noSWrapSub, w, a, b =>
      decide (-(2 ^ (w - 1) : Int) ≤ toSInt w a - toSInt w b ∧
              toSInt w a - toSInt w b < 2 ^ (w - 1))
  | .noUWrapSub, _, a, b => b ≤ a
  | .noSWrapMul, w, a, b =>
      decide (-(2 ^ (w - 1) : Int) ≤ toSInt w a * toSInt w b ∧
              toSInt w a * toSInt w b < 2 ^ (w - 1))
  | .noUWrapMul, w, a, b => a * b < 2 ^ w

/-- Evaluation of a term under an assignment `σ` of the free bit-vector
symbols.  Returns `none` on sort errors and on the invalid term.  The value
of a symbol of width `w` is the assignment reduced modulo `2 ^ w`. -/
def Expr.eval (σ : String → Nat) : Expr → Option SmtVal
  | .null => none
  | .boolC b => some (.b b)
  | .bvC w v => some (.bv w (v % 2 ^ w))
  | .var n w => some (.bv w (σ n % 2 ^ w))
  | .notE e =>
      match e.eval σ with
      | some (.b b) => some (.b (!b))
      | _ => none
  | .andE a b =>
      match a.eval σ, b.eval σ with
      | some (.b x), some (.b y) => some (.b (x && y))
      | _, _ => none
  | .orE a b =>
      match a.eval σ, b.eval σ with
      | some (.b x), some (.b y) => some (.b (x || y))
      | _, _ => none
  | .bvop o a b =>
      match a.eval σ, b.eval σ with
      | some (.bv w x), some (.bv w' y) =>
          if w = w' then some (.bv w (o.eval w x y)) else none
      | _, _ => none
  | .pred p a b =>
      match a.eval σ, b.eval σ with
      | some (.bv w x), some (.bv w' y) =>
          if w = w' then some (.b (p.eval w x y)) else none
      | _, _ => none
  | .iteE c t e =>
      match c.eval σ, t.eval σ, e.eval σ with
      | some (.b b), some (.b x), some (.b y) =>
          some (.b (if b then x else y))
      | some (.b b), some (.bv w x), some (.bv w' y) =>
          if w = w' then some (.bv w (if b then x else y)) else none
      | _, _, _ => none

/-- A term is true under `σ` when it evaluates to the boolean `true`. -/
def truthy (σ : String → Nat) (e : Expr) : Prop :=
  e.eval σ = some (.b true)

instance (σ : String → Nat) (e : Expr) : Decidable (truthy σ e) := by
  unfold truthy; infer_instance

/-- `expr::mkUInt(n, w)` of the term layer. -/
def mkUIntE (n w : Nat) : Expr := .bvC w n

/-- `expr::mkInt(n, w)` of the term layer (two's complement). -/
def mkIntE (n : Int) (w : Nat) : Expr := .bvC w (ofSInt w n)

/-- `expr::IntMin(w)` of the term layer. -/
def intMinE (w : Nat) : Expr := .bvC w (2 ^ (w - 1))

/-- `a == b` on terms. -/
def eqE (a b : Expr) : Expr := .pred .eq a b

/-- `a != b` on terms: the negation of equality. -/
def neE (a b : Expr) : Expr := .notE (.pred .eq a b)

/-- `expr::notImplies(a, b) = a ∧ ¬b`, the named shortcut of the term layer
used by every refinement query (spec 4.1). -/
def notImplies (a b : Expr) : Expr := .andE a (.notE b)

/-- Syntactic width of a term (`expr::bits()`); `0` when the term is not
bit-vector sorted. -/
def Expr.width : Expr → Nat
  | .null => 0
  | .boolC _ => 0
  | .bvC w _ => w
  | .var _ w => w
  | .notE _ => 0
  | .andE _ _ => 0
  | .orE _ _ => 0
  | .bvop _ a _ => a.width
  | .pred _ _ _ => 0
  | .iteE _ t _ => t.width

/-- `IR::StateValue` (`src/ir/state_value.h`): the pair of a symbolic value
and its non-poison predicate. -/
structure StateValue where
  value : Expr
  non_poison : Expr
deriving DecidableEq, Repr

/-- `StateValue::mkIf` (`src/ir/state_value.h`): pointwise ITE on both
components. -/
def StateValue.mkIf (c : Expr) (t e : StateValue) : StateValue :=
  ⟨.iteE c t.value e.value, .iteE c t.non_poison e.non_poison⟩

/-- A quantified symbol: its name together with its bit-vector width. -/
abbrev QVar := String × Nat

/-- `State::ValTy = pair<StateValue, set<expr>>`: a computed value together
with the per-value quantified variables introduced for it. -/
structure ValTy where
  sv : StateValue
  qvars : List QVar
deriving DecidableEq, Repr

/-- `std::set` insertion of a collection into a copy of another
(`qvars.insert(ap.second.begin(), ap.second.end())`): the union, keeping
the base first and dropping duplicates. -/
def listUnion (xs ys : List QVar) : List QVar :=
  xs ++ ys.filter (fun y => ¬ xs.contains y)

/-- `expr::mkForAll(qvars, body)`: a closed refinement query, universally
quantified over the listed symbols. -/
structure Query where
  qvars : List QVar
  body : Expr
deriving DecidableEq, Repr

/-- A query is satisfiable when some assignment of the remaining free
symbols makes the body true under every assignment of the quantified
symbols. -/
def Query.sat (q : Query) : Prop :=
  ∃ σ : String → Nat, ∀ τ : String → Nat,
    (∀ x, x ∉ q.qvars.map Prod.fst → τ x = σ x) → truthy τ q.body

/-- Modelled from the spec: the solver facade `Solver::check(queries)`
(`src/smt/solver.h`, spec 4.2) dispatches each `(goal, on-countermodel)`
pair to the external SMT engine and invokes the callback exactly when the
engine reports a countermodel.  The engine itself is external; its verdict
is the parameter `sat`.  Since every callback of `check_refinement` appends
one error string, the batch is modelled as returning the appended strings. -/
def solverCheck (sat : Query → Bool) (queries : List (Query × String)) :
    List String :=
  queries.filterMap (fun q => if sat q.1 then some q.2 else none)

/-- The three quantified refinement queries of `check_refinement`
(`src/tools/transform.cpp` lines 25-38), each paired with the error message
its countermodel callback appends.  The quantified set is the copy of
`global_qvars` into which `ap.second` is inserted. -/
def refinementQueries (global_qvars : List QVar) (dom_a : Expr) (ap : ValTy)
    (dom_b : Expr) (bp : ValTy) : List (Query × String) :=
  let a := ap.sv
  let b := bp.sv
  let qvars := listUnion global_qvars ap.qvars
  [ (⟨qvars, notImplies dom_a dom_b⟩,
      "Source is more defined than target"),
    (⟨qvars, .andE dom_a (notImplies a.non_poison b.non_poison)⟩,
      "Target is more poisonous than source"),
    (⟨qvars, .andE (.andE dom_a a.non_poison) (neE a.value b.value)⟩,
      "value mismatch") ]

/-- `check_refinement` (`src/tools/transform.cpp`): build the three queries
and dispatch them through the solver facade; returns the errors added and
the dispatched batch. -/
def check_refinement (sat : Query → Bool) (global_qvars : List QVar)
    (dom_a : Expr) (ap : ValTy) (dom_b : Expr) (bp : ValTy) :
    List String × List (Query × String) :=
  let qs := refinementQueries global_qvars dom_a ap dom_b bp
  (solverCheck sat qs, qs)

/-- Constant operators of `ConstantBinOp::Op` (`src/ir/constant.cpp`). -/
inductive CnstOp where
  | add | sub | sdiv | udiv
deriving DecidableEq, Repr

/-- The constant variants of the IR (`src/ir/constant.cpp` and spec 3):
an integer literal, a named free variable (the base `Constant`), a binary
operation over two constants, or a named function (whose folder is the
unimplemented placeholder). -/
inductive Constant where
  | intConst (w : Nat) (val : Int)
  | base (name : String) (w : Nat)
  | binop (op : CnstOp) (lhs rhs : Constant)
  | fn
deriving DecidableEq, Repr

/-- `div_ub` (`src/ir/constant.cpp` lines 46-51): conjoin into `ub` that the
divisor is non-zero and, for signed division, that the division is not
`INT_MIN / -1`.  `bits` is `b.bits()`. -/
def div_ub (a b : Expr) (ub : Expr) (sign : Bool) : Expr :=
  let bits := b.width
  let ub := .andE ub (neE b (mkUIntE 0 bits))
  if sign then .andE ub (.orE (neE a (intMinE bits)) (neE b (mkIntE (-1) bits)))
  else ub

/-- `toSMT_cnst` (`src/ir/constant.cpp`): the symbolic value of a constant
together with its UB predicate.  The base `Constant` contributes a free
variable named after it with UB `true`; `ConstantBinOp` folds the operation
and conjoins the operand UB predicates with `div_ub` for the divisions;
`ConstantFn::toSMT_cnst` returns the invalid expression with UB `true`.
The integer-literal variant is modelled from the spec (its folder lives in
the headers outside the provided tree): the literal value with UB `true`. -/
def Constant.toSMT_cnst : Constant → Expr × Expr
  | .intConst w v => (mkIntE v w, .boolC true)
  | .base n w => (.var n w, .boolC true)
  | .binop op lhs rhs =>
      let a := lhs.toSMT_cnst
      let b := rhs.toSMT_cnst
      let ub := .andE a.2 b.2
      match op with
      | .add => (.bvop .add a.1 b.1, ub)
      | .sub => (.bvop .sub a.1 b.1, ub)
      | .sdiv => (.bvop .sdiv a.1 b.1, div_ub a.1 b.1 ub true)
      | .udiv => (.bvop .udiv a.1 b.1, div_ub a.1 b.1 ub false)
  | .fn => (.null, .boolC true)

/-- `Constant::toSMT` (`src/ir/constant.cpp` lines 22-26): fold the constant,
hand its UB predicate to the state (returned here as the second component),
and produce the `StateValue` whose non-poison is the literal `true`. -/
def Constant.toSMT (c : Constant) : StateValue × Expr :=
  let ret := c.toSMT_cnst
  (⟨ret.1, .boolC true⟩, ret.2)

/-- `ConstantFn::ConstantFn` (`src/ir/constant.cpp` lines 82-111): validate
the function name and arity, throwing `ConstantFnException` otherwise, and
on success set the constant's name to the call's surface form.  `args` are
the operand names (`arg->getName()`). -/
def constantFnCtor (name : String) (args : List String) :
    Except String String :=
  if name = "log2" ∨ name = "width" then
    if args.length ≠ 1 then
      .error ("Expected 1 parameter for " ++ name ++ ", but got " ++
              toString args.length)
    else
      .ok (name ++ "(" ++ String.intercalate ", " args ++ ")")
  else
    .error ("Unknown function: " ++ name)

/-- `var_type_bits` (`src/ir/type.cpp`): width of the category variable. -/
def var_type_bits : Nat := 3

/-- `var_bw_bits` (`src/ir/type.cpp`): width of the width variable. -/
def var_bw_bits : Nat := 10

/-- `Type::var(name, bits)` (`src/ir/type.cpp`): the logical variable
`"<opname>_<name>"`. -/
def typeAuxVar (opname suffix : String) (bits : Nat) : Expr :=
  .var (opname ++ "_" ++ suffix) bits

/-- `Type::typeVar` (`src/ir/type.cpp`): the 3-bit category variable of the
operation name. -/
def typeVarOf (opname : String) : Expr :=
  typeAuxVar opname "type" var_type_bits

/-- `Type::sizeVar` (`src/ir/type.cpp`): the 10-bit width variable of the
operation name. -/
def sizeVarOf (opname : String) : Expr :=
  typeAuxVar opname "bw" var_bw_bits

/-- The category numerals `SymbolicType::TypeNum` (`Int, Float, Ptr, Array,
Vector` in declaration order). -/
def catInt : Nat := 0

/-- Category numeral of `Float`. -/
def catFloat : Nat := 1

/-- Category numeral of `Ptr`. -/
def catPtr : Nat := 2

/-- Category numeral of `Array`. -/
def catArray : Nat := 3

/-- Category numeral of `Vector`. -/
def catVector : Nat := 4

/-- `Type::is(t)` (`src/ir/type.cpp`): the category variable equals the
category numeral. -/
def typeIs (opname : String) (t : Nat) : Expr :=
  eqE (typeVarOf opname) (mkUIntE t var_type_bits)

/-- `IR::IntType` (`src/ir/type.cpp`): operation name, bit-width, and
whether the width is fixed (`defined`) or drawn from the width variable. -/
structure IntType where
  opname : String
  bitwidth : Nat
  defined : Bool
deriving DecidableEq, Repr

/-- `IntType::sizeVar` (`src/ir/type.cpp` lines 125-127): the concrete width
when defined, the width variable otherwise. -/
def IntType.sizeVar (t : IntType) : Expr :=
  if t.defined then mkUIntE t.bitwidth var_bw_bits else sizeVarOf t.opname

/-- `IntType::getTypeConstraints` (`src/ir/type.cpp` lines 117-123): the
width is non-zero and unsigned-at-most 64. -/
def IntType.getTypeConstraints (t : IntType) : Expr :=
  .andE (neE t.sizeVar (mkUIntE 0 var_bw_bits))
        (.pred .ule t.sizeVar (mkUIntE 64 var_bw_bits))

/-- `IntType::operator==` (`src/ir/type.cpp` lines 129-131): equality of the
two width terms. -/
def IntType.eqT (a b : IntType) : Expr :=
  eqE a.sizeVar b.sizeVar

/-- `IntType::fixup` (`src/ir/type.cpp` lines 133-136): when the width is
not fixed, read it from the model's valuation of the width variable. -/
def modelGetUInt (σ : String → Nat) (e : Expr) : Nat :=
  match e.eval σ with
  | some (.bv _ v) => v
  | _ => 0

/-- `IntType::fixup`, continued: the update itself. -/
def IntType.fixup (σ : String → Nat) (t : IntType) : IntType :=
  if t.defined then t else { t with bitwidth := modelGetUInt σ t.sizeVar }

/-- `IR::SymbolicType` (`src/ir/type.cpp`): operation name, the bitmask of
enabled categories, the chosen category after fix-up (`Undefined` is
`none`), and the integer variant it owns.  The float, pointer, array and
vector variants carry no state beyond the shared operation name. -/
structure SymbolicType where
  opname : String
  enabled : Nat
  typ : Option Nat
  i : IntType
deriving DecidableEq, Repr

/-- `SymbolicType::isInt` and friends (`src/ir/type.cpp` lines 256-274): the
enabled-mask test (a boolean constant) conjoined with the category test. -/
def SymbolicType.isCat (s : SymbolicType) (cat : Nat) : Expr :=
  .andE (.boolC (s.enabled &&& (1 <<< cat) ≠ 0)) (typeIs s.opname cat)

/-- The concrete and symbolic type nodes of `src/ir/type.cpp`.  Void, float,
pointer, array and vector carry only their operation name (their remaining
state is unimplemented in the source). -/
inductive Ty where
  | void
  | int (t : IntType)
  | float (opname : String)
  | ptr (opname : String)
  | array (opname : String)
  | vector (opname : String)
  | sym (s : SymbolicType)
deriving DecidableEq, Repr

/-- `SymbolicType::operator==` (`src/ir/type.cpp` lines 309-332): against a
concrete type, the matching category test conjoined with the variant
equality (`FloatType`, `ArrayType` and `VectorType` equalities are the
constant `false`; `PtrType::operator==` compares the width variables);
against another symbolic type, the accumulated disjunction over the left
operand's categories conjoined with equality of the two category
variables. -/
def SymbolicType.eqT (s : SymbolicType) : Ty → Expr
  | .void => .boolC false
  | .int t => .andE (s.isCat catInt) (IntType.eqT s.i t)
  | .float _ => .andE (s.isCat catFloat) (.boolC false)
  | .ptr n => .andE (s.isCat catPtr) (eqE (sizeVarOf s.opname) (sizeVarOf n))
  | .array _ => .andE (s.isCat catArray) (.boolC false)
  | .vector _ => .andE (s.isCat catVector) (.boolC false)
  | .sym r =>
      let c := .orE (.orE (.orE (.orE (.orE (.boolC false)
        (.andE (s.isCat catInt) (IntType.eqT s.i r.i)))
        (.andE (s.isCat catFloat) (.boolC false)))
        (.andE (s.isCat catPtr) (eqE (sizeVarOf s.opname) (sizeVarOf r.opname))))
        (.andE (s.isCat catArray) (.boolC false)))
        (.andE (s.isCat catVector) (.boolC false))
      .andE c (eqE (typeVarOf s.opname) (typeVarOf r.opname))

/-- `Type::operator==` (`src/ir/type.cpp` lines 51-77): dispatch on the two
variants; a concrete compared with a like concrete uses the concrete
equality, a concrete compared with a symbolic delegates to
`SymbolicType::operator==` with the operands swapped, mismatched concretes
compare as `false`, and a symbolic left operand delegates directly. -/
def Ty.eqT : Ty → Ty → Expr
  | .int a, .int b => IntType.eqT a b
  | .int a, .sym s => s.eqT (.int a)
  | .float _, .float _ => .boolC false
  | .float n, .sym s => s.eqT (.float n)
  | .ptr a, .ptr b => eqE (sizeVarOf a) (sizeVarOf b)
  | .ptr n, .sym s => s.eqT (.ptr n)
  | .array _, .array _ => .boolC false
  | .array n, .sym s => s.eqT (.array n)
  | .vector _, .vector _ => .boolC false
  | .vector n, .sym s => s.eqT (.vector n)
  | .sym s, b => s.eqT b
  | _, _ => .boolC false

/-- `SymbolicType::fixup` (`src/ir/type.cpp` lines 334-349): read the chosen
category from the model and fix up the corresponding variant (only the
integer variant has state to fix; the other fix-ups are no-ops). -/
def SymbolicType.fixup (σ : String → Nat) (s : SymbolicType) : SymbolicType :=
  let smt_typ := modelGetUInt σ (typeVarOf s.opname)
  { s with typ := some smt_typ,
           i := if smt_typ = catInt then s.i.fixup σ else s.i }

/-- Type fix-up over the whole hierarchy: `VoidType::fixup` and the float,
pointer, array and vector fix-ups do nothing (`src/ir/type.cpp`). -/
def Ty.fixup (σ : String → Nat) : Ty → Ty
  | .void => .void
  | .int t => .int (t.fixup σ)
  | .float n => .float n
  | .ptr n => .ptr n
  | .array n => .array n
  | .vector n => .vector n
  | .sym s => .sym (s.fixup σ)

/-- `unordered_map::emplace`: insert a binding only when the key is not yet
bound (the parser's identifier table, `src/tools/alive_parser.cpp`). -/
def emplace (m : List (String × Nat)) (k : String) (v : Nat) :
    List (String × Nat) :=
  if (m.lookup k).isSome then m else (k, v) :: m

/-- The parser's per-function state (`src/tools/alive_parser.cpp`): the
identifier table mapping names to values, the current function's input and
constant lists, and the arena counter handing out value identities. -/
structure PState where
  identifiers : List (String × Nat)
  inputs : List (Nat × String)
  constants : List (Nat × Int)
  nextId : Nat
deriving DecidableEq, Repr

/-- An operand token: an integer literal (`NUM`) or a `%identifier`
(`IDENTIFIER`). -/
inductive OpToken where
  | num (n : Int)
  | ident (s : String)
deriving DecidableEq, Repr

/-- `parse_operand` (`src/tools/alive_parser.cpp` lines 131-151): a literal
becomes a fresh interned constant; an identifier already bound in the
identifier table resolves to its binding; an unbound identifier creates a
new `Input` with that name, registers it as a function input, and binds the
identifier to it.  Returns the updated state and the operand's value. -/
def parse_operand (st : PState) : OpToken → PState × Nat
  | .num n =>
      ({ st with constants := st.constants ++ [(st.nextId, n)],
                 nextId := st.nextId + 1 }, st.nextId)
  | .ident id =>
      match st.identifiers.lookup id with
      | some v => (st, v)
      | none =>
          ({ st with inputs := st.inputs ++ [(st.nextId, id)],
                     identifiers := emplace st.identifiers id st.nextId,
                     nextId := st.nextId + 1 }, st.nextId)

/-- The parser actions that touch the identifier table after an operand is
parsed: parsing another operand, or registering a parsed instruction under
its name (`identifiers.emplace(move(name), i.get())` in `parse_fn`). -/
inductive PStep where
  | operand (t : OpToken)
  | instrReg (name : String)
deriving DecidableEq, Repr

/-- Apply one parser action to the state. -/
def PState.step (st : PState) : PStep → PState
  | .operand t => (parse_operand st t).1
  | .instrReg name =>
      { st with identifiers := emplace st.identifiers name st.nextId,
                nextId := st.nextId + 1 }

/-- Run a sequence of parser actions. -/
def PState.run (st : PState) (steps : List PStep) : PState :=
  steps.foldl PState.step st

/-- `BinOp::Op` (spec 3/4.4). -/
inductive BinOpK where
  | add | sub | mul | sdiv | udiv | shl | lshr | ashr
deriving DecidableEq, Repr

/-- `BinOp::Flags` as a set (`NSW`, `NUW`, `Exact`; `None` is all clear). -/
structure Flags where
  nsw : Bool := false
  nuw : Bool := false
  exact : Bool := false
deriving DecidableEq, Repr

/-- The term-layer operator of each IR operation. -/
def BinOpK.toBvOp : BinOpK → BvOp
  | .add => .add
  | .sub => .sub
  | .mul => .mul
  | .sdiv => .sdiv
  | .udiv => .udiv
  | .shl => .shl
  | .lshr => .lshr
  | .ashr => .ashr

/-- Modelled from the spec (4.4, BinOp semantics table): the additional
non-poison condition of an operation at width `w` on operand values
`a, b`.  `¬NSW ∨ no-signed-overflow` is rendered as the overflow predicate
when the flag is set and `true` otherwise; the `Exact` conditions are the
stated equalities; the shift-overflow predicates are the round-trip
equalities. -/
def binopNonPoisonExtra (op : BinOpK) (f : Flags) (_w : Nat) (a b : Expr) :
    Expr :=
  let flagged (fl : Bool) (e : Expr) : Expr := if fl then e else .boolC true
  match op with
  | .add => .andE (flagged f.nsw (.pred .noSWrapAdd a b))
                  (flagged f.nuw (.pred .noUWrapAdd a b))
  | .sub => .andE (flagged f.nsw (.pred .noSWrapSub a b))
                  (flagged f.nuw (.pred .noUWrapSub a b))
  | .mul => .andE (flagged f.nsw (.pred .noSWrapMul a b))
                  (flagged f.nuw (.pred .noUWrapMul a b))
  | .sdiv => flagged f.exact (eqE a (.bvop .mul (.bvop .sdiv a b) b))
  | .udiv => flagged f.exact (eqE a (.bvop .mul (.bvop .udiv a b) b))
  | .shl => .andE (flagged f.nsw (eqE a (.bvop .ashr (.bvop .shl a b) b)))
                  (flagged f.nuw (eqE a (.bvop .lshr (.bvop .shl a b) b)))
  | .lshr => flagged f.exact (eqE a (.bvop .shl (.bvop .lshr a b) b))
  | .ashr => flagged f.exact (eqE a (.bvop .shl (.bvop .ashr a b) b))

/-- Modelled from the spec (4.4): the additional UB condition of an
operation at width `w`: non-zero divisor for the divisions (signed division
additionally forbids `INT_MIN / -1`) and in-range shift amounts. -/
def binopUbExtra (op : BinOpK) (w : Nat) (a b : Expr) : Expr :=
  match op with
  | .add => .boolC true
  | .sub => .boolC true
  | .mul => .boolC true
  | .sdiv => .andE (neE b (mkUIntE 0 w))
                   (.notE (.andE (eqE a (intMinE w)) (eqE b (mkIntE (-1) w))))
  | .udiv => neE b (mkUIntE 0 w)
  | .shl => .notE (.pred .ule (mkUIntE w w) b)
  | .lshr => .notE (.pred .ule (mkUIntE w w) b)
  | .ashr => .notE (.pred .ule (mkUIntE w w) b)

/-- An instruction operand: an interned constant, a reference to a named
value (input or earlier instruction), or an undefined value. -/
inductive Operand where
  | cnst (c : Constant)
  | ident (name : String)
  | undef (w : Nat)
deriving DecidableEq, Repr

/-- The core instructions (spec 3): a named binary operation, `ret`, and
`unreachable`.  Types are carried as concrete bit-widths (symbolic
execution runs after type fix-up). -/
inductive Instr where
  | binop (name : String) (w : Nat) (op : BinOpK) (f : Flags) (a b : Operand)
  | ret (w : Nat) (v : Operand)
  | unreachable
deriving DecidableEq, Repr

/-- `Value::getName` of an instruction; `ret` and `unreachable` are
unnamed. -/
def Instr.getName : Instr → String
  | .binop n _ _ _ _ _ => n
  | .ret _ _ => ""
  | .unreachable => ""

/-- A function after type fix-up: named inputs with their widths, and the
ordered basic blocks (the implicit start block has the empty label). -/
structure FunctionIR where
  fname : String
  inputs : List (String × Nat)
  blocks : List (String × List Instr)
deriving DecidableEq, Repr

/-- `Function::instrs()`: all instructions across the blocks in order. -/
def FunctionIR.instrs (f : FunctionIR) : List Instr :=
  (f.blocks.map Prod.snd).flatten

/-- Modelled from the spec (4.5): the in-flight execution state of one
function: path domain, UB accumulator, value environment (keyed by value
name, with a flag marking instruction values), state-level quantified
variables, the collected returns, and the fresh-symbol counter. -/
structure SymState where
  dom : Expr
  ub : Expr
  env : List (String × Bool × ValTy)
  qvars : List QVar
  rets : List (Expr × ValTy)
  fresh : Nat
deriving DecidableEq, Repr

/-- Modelled from the spec (4.5): operand valuation.  A constant is folded
by `Constant::toSMT`, adding its UB predicate to the state; a named operand
is read from the environment; an undefined value introduces a fresh free
symbol recorded in the state's and the value's quantified-variable sets. -/
def evalOperand (st : SymState) : Operand → Option (SymState × ValTy)
  | .cnst c =>
      let r := c.toSMT
      some ({ st with ub := .andE st.ub r.2 }, ⟨r.1, []⟩)
  | .ident n =>
      (st.env.find? (fun e => e.1 = n)).map (fun e => (st, e.2.2))
  | .undef w =>
      let nm := "undef!" ++ toString st.fresh
      some ({ st with qvars := st.qvars ++ [(nm, w)], fresh := st.fresh + 1 },
            ⟨⟨.var nm w, .boolC true⟩, [(nm, w)]⟩)

/-- Modelled from the spec (4.4-4.5): execute one instruction.  A binary
operation stores its `StateValue` under its name and merges its UB
condition; `ret` records `(domain, value)` and falsifies the domain;
`unreachable` falsifies UB and domain. -/
def execInstr (st : SymState) : Instr → Option SymState
  | .binop n w op f a b => do
      let (st1, va) ← evalOperand st a
      let (st2, vb) ← evalOperand st1 b
      let av := va.sv.value
      let bv := vb.sv.value
      let value := Expr.bvop op.toBvOp av bv
      let np := .andE (.andE va.sv.non_poison vb.sv.non_poison)
                      (binopNonPoisonExtra op f w av bv)
      some { st2 with
              ub := .andE st2.ub (binopUbExtra op w av bv),
              env := st2.env ++ [(n, true, ⟨⟨value, np⟩,
                                  listUnion va.qvars vb.qvars⟩)] }
  | .ret _ v => do
      let (st1, vv) ← evalOperand st v
      some { st1 with rets := st1.rets ++ [(st1.dom, vv)],
                      dom := .boolC false }
  | .unreachable =>
      some { st with ub := .andE st.ub (.boolC false), dom := .boolC false }

/-- Modelled from the spec (4.5, finalization): `return_domain` is the
disjunction of the collected return domains (`false` when none). -/
def retDomain (rets : List (Expr × ValTy)) : Expr :=
  rets.foldl (fun acc r => .orE acc r.1) (.boolC false)

/-- Modelled from the spec (4.5, finalization): the ITE-chain over the
collected returns selecting the first satisfied domain's valuation. -/
def retChain : List (Expr × ValTy) → StateValue
  | [] => ⟨.null, .null⟩
  | [(_, v)] => v.sv
  | (d, v) :: rest => StateValue.mkIf d v.sv (retChain rest)

/-- The per-value quantified variables of the finalized return value: the
union of the collected returns' sets. -/
def retQVars (rets : List (Expr × ValTy)) : List QVar :=
  rets.foldl (fun acc r => listUnion acc r.2.qvars) []

/-- The executed state of one function as consumed by the refinement
checker: `getValues()`, `getQuantVars()`, `fnReturned()`, `returnDomain()`
and `returnVal()` of `IR::State`. -/
structure ExecState where
  env : List (String × Bool × ValTy)
  quantVars : List QVar
  returned : Bool
  returnDomain : Expr
  returnVal : ValTy
  ub : Expr
deriving DecidableEq, Repr

/-- Modelled from the spec (4.5): `sym_exec` walks the start block of the
function over a state seeded with the (unquantified) input symbols, then
finalizes the collected returns.  Execution is deterministic; fresh symbols
are drawn from a counter starting at zero (`Value::reset_gbl_id()` is
called before the executions so that fresh names are reproducible). -/
def symExec (f : FunctionIR) : Option ExecState := do
  let initEnv := f.inputs.map
    (fun p => (p.1, false, (⟨⟨.var p.1 p.2, .boolC true⟩, []⟩ : ValTy)))
  let st0 : SymState :=
    ⟨.boolC true, .boolC true, initEnv, [], [], 0⟩
  let instrs := ((f.blocks.lookup "").getD [])
  let stF ← instrs.foldlM execInstr st0
  some { env := stF.env,
         quantVars := stF.qvars,
         returned := !stF.rets.isEmpty,
         returnDomain := retDomain stF.rets,
         returnVal := ⟨retChain stF.rets, retQVars stF.rets⟩,
         ub := stF.ub }

/-- The `tgt_vals` map of `Transform::verify` (`src/tools/transform.cpp`
lines 44-47): every target instruction emplaced under its name (first
binding wins). -/
def emplaceStep (m : List (String × Instr)) (i : Instr) :
    List (String × Instr) :=
  if (m.lookup i.getName).isSome then m else m ++ [(i.getName, i)]

/-- The fold of `emplace` over the instruction list. -/
def emplaceVals (is : List Instr) : List (String × Instr) :=
  is.foldl emplaceStep []

/-- Environment lookup of an instruction value by name
(`tgt_state.at(*tgt_vals.at(name))`). -/
def envInstrVal (env : List (String × Bool × ValTy)) (n : String) :
    Option ValTy :=
  (env.find? (fun e => e.1 = n ∧ e.2.1)).map (fun e => e.2.2)

/-- The `check_each_var` loop of `Transform::verify` (`src/tools/transform.cpp`
lines 57-67): for every source environment entry that is a `%`-named
instruction, run `check_refinement` with both domains `true` against the
target value of the same name, quantifying the target state's variables.
`none` models the `std::out_of_range` abort when the target lacks the
name. -/
def perVarStep (sat : Query → Bool) (tgtSt : ExecState)
    (tgtVals : List (String × Instr))
    (acc : List String × List (Query × String)) (e : String × Bool × ValTy) :
    Option (List String × List (Query × String)) :=
  if e.1.take 1 = "%" ∧ e.2.1 then do
    let _i ← tgtVals.lookup e.1
    let bval ← envInstrVal tgtSt.env e.1
    let r := check_refinement sat tgtSt.quantVars (.boolC true) e.2.2
                              (.boolC true) bval
    some (acc.1 ++ r.1, acc.2 ++ r.2)
  else
    some acc

/-- The `check_each_var` loop itself: fold the per-entry check over the
source environment. -/
def perVarChecks (sat : Query → Bool) (srcSt tgtSt : ExecState)
    (tgtVals : List (String × Instr)) :
    Option (List String × List (Query × String)) :=
  srcSt.env.foldlM (perVarStep sat tgtSt tgtVals)
    (([], []) : List String × List (Query × String))

/-- The return handling of `Transform::verify` (`src/tools/transform.cpp`
lines 69-79): when exactly one state returned, add the corresponding error
and dispatch nothing; when both returned, run `check_refinement` on the
return domains and values, quantifying the target state's variables; when
neither returned, do nothing. -/
def returnCheck (sat : Query → Bool) (A B : ExecState) :
    List String × List (Query × String) :=
  if A.returned ≠ B.returned then
    (if A.returned then ["Source returns but target doesn't"]
     else ["Target returns but source doesn't"], [])
  else if A.returned then
    check_refinement sat B.quantVars A.returnDomain A.returnVal
                     B.returnDomain B.returnVal
  else
    ([], [])

/-- `tools::Transform` (`src/tools/transform.h`): a named source/target
pair. -/
structure Transform where
  tname : String
  src : FunctionIR
  tgt : FunctionIR
deriving DecidableEq, Repr

/-- `TransformVerifyOpts`. -/
structure TransformVerifyOpts where
  check_each_var : Bool
deriving DecidableEq, Repr

/-- `Transform::verify` (`src/tools/transform.cpp` lines 43-82): build
`tgt_vals`, symbolically execute both sides, run the optional per-variable
checks and then the return check; the result pairs the collected errors
with the dispatched query batches.  The external solver's verdict is the
parameter `sat`. -/
def Transform.verify (sat : Query → Bool) (t : Transform)
    (opts : TransformVerifyOpts) :
    Option (List String × List (Query × String)) := do
  let tgtVals := emplaceVals t.tgt.instrs
  let A ← symExec t.src
  let B ← symExec t.tgt
  let pv ← if opts.check_each_var then perVarChecks sat A B tgtVals
           else some ([], [])
  let rc := returnCheck sat A B
  some (pv.1 ++ rc.1, pv.2 ++ rc.2)

/-- A function is well-formed when it executes successfully and its executed
environment respects the data-model invariants (spec 3): value names are
unique within the function and every instruction value is registered under
the name of one of the function's instructions. -/
def wellFormed (f : FunctionIR) : Bool :=
  match symExec f with
  | some st =>
      decide ((st.env.map (fun e => e.1)).Nodup) &&
      st.env.all (fun e => !e.2.1 || (f.instrs.map Instr.getName).contains e.1)
  | none => false

/-- The per-category variant equality used by symbolic type equality: width
equality for the integer and pointer variants, the constant `false` for the
unimplemented float, array and vector equalities (`src/ir/type.cpp`). -/
def variantEq (s r : SymbolicType) (cat : Nat) : Expr :=
  if cat = catInt then IntType.eqT s.i r.i
  else if cat = catPtr then eqE (sizeVarOf s.opname) (sizeVarOf r.opname)
  else .boolC false

/-- Stated from the specification's words (spec 3): equality of two symbolic
types as "the disjunction over shared categories" — over the categories
enabled in BOTH masks — of the per-category equalities (both category
variables equal the category and the corresponding variants are equal). -/
def symEqSharedSpec (s r : SymbolicType) : Expr :=
  [catInt, catFloat, catPtr, catArray, catVector].foldl
    (fun acc cat =>
      if s.enabled &&& (1 <<< cat) ≠ 0 ∧ r.enabled &&& (1 <<< cat) ≠ 0 then
        .orE acc (.andE (.andE (typeIs s.opname cat) (typeIs r.opname cat))
                        (variantEq s r cat))
      else acc)
    (.boolC false)

/-- The amended reading of symbolic-symbolic equality matching the source:
the disjunction over the five categories of "the LEFT operand enables the
category, both category variables equal it, and the corresponding variants
are equal"; the right operand's enabled mask is not consulted. -/
def symEqLeftSpec (s r : SymbolicType) : Expr :=
  [catInt, catFloat, catPtr, catArray, catVector].foldl
    (fun acc cat =>
      .orE acc (.andE (.boolC (s.enabled &&& (1 <<< cat) ≠ 0))
        (.andE (.andE (typeIs s.opname cat) (typeIs r.opname cat))
               (variantEq s r cat))))
    (.boolC false)

/-- The claimed operator-specific UB condition of constant folding on the
evaluated operand values at width `w`: nothing for addition and
subtraction, a non-zero divisor for unsigned division, and additionally not
`INT_MIN / -1` for signed division. -/
def cnstOpUbCond (op : CnstOp) (w va vb : Nat) : Prop :=
  match op with
  | .add => True
  | .sub => True
  | .udiv => vb ≠ 0
  | .sdiv => vb ≠ 0 ∧ ¬(va = 2 ^ (w - 1) ∧ vb = 2 ^ w - 1)

/-- A solver verdict reporting a countermodel for every query. -/
def satAllQ : Query → Bool := fun _ => true

/-- A solver verdict reporting a countermodel for no query (trivially
sound). -/
def satNoQ : Query → Bool := fun _ => false

/-- A symbolic type enabling only the integer category. -/
def symIntOnly : SymbolicType := ⟨"a", 1, none, ⟨"a", 0, false⟩⟩

/-- A symbolic type enabling only the float category. -/
def symFloatOnly : SymbolicType := ⟨"b", 2, none, ⟨"b", 0, false⟩⟩

/-- A source function whose only use of an undefined value feeds an
intermediate instruction, not the returned value: `%a = add i8 undef, 0;
ret i8 0`. -/
def undefSrcFn : FunctionIR :=
  ⟨"f", [],
   [("", [.binop "%a" 8 .add {} (.undef 8) (.cnst (.intConst 8 0)),
          .ret 8 (.cnst (.intConst 8 0))])]⟩

/-- A target function returning the constant zero: `ret i8 0`. -/
def constTgtFn : FunctionIR :=
  ⟨"g", [], [("", [.ret 8 (.cnst (.intConst 8 0))])]⟩

/-- A small well-formed function: `%r = add i8 %x, 1; ret i8 %r`. -/
def addOneFn : FunctionIR :=
  ⟨"h", [("%x", 8)],
   [("", [.binop "%r" 8 .add {} (.ident "%x") (.cnst (.intConst 8 1)),
          .ret 8 (.ident "%r")])]⟩

/-- A function that never returns: `unreachable`. -/
def unreachFn : FunctionIR :=
  ⟨"u", [], [("", [.unreachable])]⟩

theorem truthy_andE (σ : String → Nat) (a b : Expr) :
    truthy σ (.andE a b) ↔ (truthy σ a ∧ truthy σ b) := by
  unfold truthy
  rcases ha : Expr.eval σ a with _ | (x | ⟨w, v⟩) <;>
    rcases hb : Expr.eval σ b with _ | (y | ⟨w', v'⟩) <;>
      simp [Expr.eval, ha, hb]

theorem truthy_orE (σ : String → Nat) (a b : Expr) :
    truthy σ (.orE a b) ↔
      ((truthy σ a ∧ ∃ y, Expr.eval σ b = some (.b y)) ∨
       (truthy σ b ∧ ∃ x, Expr.eval σ a = some (.b x))) := by
  unfold truthy
  rcases ha : Expr.eval σ a with _ | (x | ⟨w, v⟩) <;>
    rcases hb : Expr.eval σ b with _ | (y | ⟨w', v'⟩) <;>
      simp [Expr.eval, ha, hb]

theorem truthy_notE (σ : String → Nat) (e : Expr) :
    truthy σ (.notE e) ↔ Expr.eval σ e = some (.b false) := by
  unfold truthy
  rcases he : Expr.eval σ e with _ | (x | ⟨w, v⟩) <;> simp [Expr.eval, he]

theorem not_truthy_notImplies_self (σ : String → Nat) (d : Expr) :
    ¬ truthy σ (notImplies d d) := by
  rw [notImplies, truthy_andE]
  rintro ⟨hd, hn⟩
  rw [truthy_notE] at hn
  rw [truthy] at hd
  rw [hd] at hn
  exact absurd (Option.some.inj hn) (by simp)

theorem not_truthy_poison_refl (σ : String → Nat) (d p : Expr) :
    ¬ truthy σ (.andE d (notImplies p p)) := by
  rw [truthy_andE]
  rintro ⟨_, hn⟩
  exact not_truthy_notImplies_self σ p hn

theorem not_truthy_value_refl (σ : String → Nat) (d p v : Expr) :
    ¬ truthy σ (.andE (.andE d p) (neE v v)) := by
  rw [truthy_andE]
  rintro ⟨_, hn⟩
  rw [neE, truthy_notE] at hn
  rcases hv : Expr.eval σ v with _ | (x | ⟨w, x⟩) <;>
    simp [Expr.eval, hv, BvPred.eval] at hn

theorem Query.not_sat_of_unsat_body (q : Query)
    (h : ∀ τ, ¬ truthy τ q.body) : ¬ q.sat := by
  rintro ⟨σ, hs⟩
  exact h σ (hs σ (fun _ _ => rfl))

theorem sound_sat_false (sat : Query → Bool)
    (hsound : ∀ q, sat q = true → q.sat) (q : Query)
    (h : ∀ τ, ¬ truthy τ q.body) : sat q = false := by
  cases hq : sat q with
  | false => rfl
  | true => exact absurd (hsound q hq) (Query.not_sat_of_unsat_body q h)

theorem check_refinement_refl_errs (sat : Query → Bool)
    (hsound : ∀ q, sat q = true → q.sat) (gq : List QVar) (d : Expr)
    (v : ValTy) : (check_refinement sat gq d v d v).1 = [] := by
  have h1 := sound_sat_false sat hsound
    ⟨listUnion gq v.qvars, notImplies d d⟩
    (fun τ => not_truthy_notImplies_self τ d)
  have h2 := sound_sat_false sat hsound
    ⟨listUnion gq v.qvars,
     .andE d (notImplies v.sv.non_poison v.sv.non_poison)⟩
    (fun τ => not_truthy_poison_refl τ d v.sv.non_poison)
  have h3 := sound_sat_false sat hsound
    ⟨listUnion gq v.qvars,
     .andE (.andE d v.sv.non_poison) (neE v.sv.value v.sv.value)⟩
    (fun τ => not_truthy_value_refl τ d v.sv.non_poison v.sv.value)
  simp [check_refinement, refinementQueries, solverCheck, h1, h2, h3]

/-- C5: for every integer type, `IntType::getTypeConstraints` is satisfied
by a model assigning width `w` to the type's width term if and only if
`1 ≤ w ≤ 64`. -/
theorem c5_int_type_constraints (t : IntType) (σ : String → Nat) (w : Nat)
    (h : Expr.eval σ t.sizeVar = some (.bv var_bw_bits w)) :
    truthy σ t.getTypeConstraints ↔ (1 ≤ w ∧ w ≤ 64) := by
  rw [IntType.getTypeConstraints, truthy_andE]
  unfold truthy neE mkUIntE
  rw [var_bw_bits] at h
  simp [Expr.eval, h, BvPred.eval, var_bw_bits]
  omega

/-- Witness for C5 at the symbolic-width integer type named `a` under the
model assigning `8` everywhere. -/
theorem c5_int_type_constraints_witness :
    (Expr.eval (fun _ => 8) (IntType.sizeVar ⟨"a", 0, false⟩) =
      some (.bv var_bw_bits 8)) ∧
    (truthy (fun _ => 8) (IntType.getTypeConstraints ⟨"a", 0, false⟩) ↔
      (1 ≤ 8 ∧ 8 ≤ 64)) :=
  ⟨by decide, c5_int_type_constraints ⟨"a", 0, false⟩ (fun _ => 8) 8 (by decide)⟩

theorem intType_fixup_idem (σ : String → Nat) (t : IntType) :
    (t.fixup σ).fixup σ = t.fixup σ := by
  unfold IntType.fixup
  by_cases h : t.defined
  · simp [h]
  · simp [h, IntType.sizeVar]

theorem symType_fixup_idem (σ : String → Nat) (s : SymbolicType) :
    (s.fixup σ).fixup σ = s.fixup σ := by
  unfold SymbolicType.fixup
  by_cases h : modelGetUInt σ (typeVarOf s.opname) = catInt
  · simp [h, intType_fixup_idem]
  · simp [h]

/-- C7: type fix-up is idempotent under a fixed model: fixing a type up
twice leaves the same chosen category and concrete bit-width as fixing it
up once. -/
theorem c7_fixup_idempotent (t : Ty) (σ : String → Nat) :
    (t.fixup σ).fixup σ = t.fixup σ := by
  cases t with
  | int it => simp [Ty.fixup, intType_fixup_idem]
  | sym s => simp [Ty.fixup, symType_fixup_idem]
  | _ => rfl

/-- C10: the `ConstantFn` constructor reports an error exactly when the
function name is neither `log2` nor `width` or the argument count is not
one, and on success sets the name to the parenthesized surface form. -/
theorem c10_constantfn (name : String) (args : List String) :
    ((∃ e, constantFnCtor name args = .error e) ↔
      ((name ≠ "log2" ∧ name ≠ "width") ∨ args.length ≠ 1))
    ∧ (∀ r, constantFnCtor name args = .ok r →
        r = name ++ "(" ++ String.intercalate ", " args ++ ")") := by
  unfold constantFnCtor
  constructor
  · by_cases h : name = "log2" ∨ name = "width" <;>
      by_cases hl : args.length = 1 <;> simp [h, hl] <;> tauto
  · intro r hr
    by_cases h : name = "log2" ∨ name = "width" <;>
      by_cases hl : args.length = 1 <;> simp [h, hl] at hr <;> tauto

/-- Witness for C10 at `log2(%x)`. -/
theorem c10_constantfn_witness :
    constantFnCtor "log2" ["%x"] = .ok "log2(%x)" ∧
    "log2(%x)" = "log2" ++ "(" ++ String.intercalate ", " ["%x"] ++ ")" :=
  ⟨by rfl, (c10_constantfn "log2" ["%x"]).2 "log2(%x)" (by rfl)⟩

theorem emplace_lookup_preserved (m : List (String × Nat)) (k k' : String)
    (v v' : Nat) (h : m.lookup k = some v) :
    (emplace m k' v').lookup k = some v := by
  unfold emplace
  by_cases hk : (m.lookup k').isSome
  · simp [hk, h]
  · have hne : (k == k') = false := by
      refine beq_eq_false_iff_ne.mpr ?_
      intro he
      subst he
      rw [h] at hk
      simp at hk
    simp [hk, List.lookup, hne, h]

theorem step_lookup_preserved (st : PState) (s : PStep) (id : String)
    (v : Nat) (h : st.identifiers.lookup id = some v) :
    (st.step s).identifiers.lookup id = some v := by
  cases s with
  | operand t =>
      cases t with
      | num n => simpa [PState.step, parse_operand] using h
      | ident s' =>
          unfold PState.step parse_operand
          cases hl : st.identifiers.lookup s' with
          | some w => simpa [hl] using h
          | none =>
              simp only [hl]
              exact emplace_lookup_preserved _ _ _ _ _ h
  | instrReg n =>
      unfold PState.step
      exact emplace_lookup_preserved _ _ _ _ _ h

theorem run_lookup_preserved (steps : List PStep) (st : PState) (id : String)
    (v : Nat) (h : st.identifiers.lookup id = some v) :
    (st.run steps).identifiers.lookup id = some v := by
  induction steps generalizing st with
  | nil => exact h
  | cons s rest ih => exact ih (st.step s) (step_lookup_preserved st s id v h)

theorem parse_operand_bound (st : PState) (id : String) (v : Nat)
    (h : st.identifiers.lookup id = some v) :
    parse_operand st (.ident id) = (st, v) := by
  unfold parse_operand
  simp only []
  rw [h]

/-- C8: an operand identifier unbound in the identifier table becomes a new
`Input` with that name, registered in the function's input list and bound
in the table, and every subsequent use of the identifier — across any
further parser actions in the same function — resolves to that same
input. -/
theorem c8_implicit_inputs (st : PState) (id : String)
    (h : st.identifiers.lookup id = none) :
    (parse_operand st (.ident id)).2 = st.nextId ∧
    (parse_operand st (.ident id)).1.inputs = st.inputs ++ [(st.nextId, id)] ∧
    (parse_operand st (.ident id)).1.identifiers.lookup id = some st.nextId ∧
    ∀ steps : List PStep,
      (((parse_operand st (.ident id)).1.run steps).identifiers.lookup id =
        some st.nextId) ∧
      parse_operand ((parse_operand st (.ident id)).1.run steps) (.ident id) =
        ((parse_operand st (.ident id)).1.run steps, st.nextId) := by
  have hbound : (parse_operand st (.ident id)).1.identifiers.lookup id =
      some st.nextId := by
    unfold parse_operand
    simp only [h]
    unfold emplace
    simp [h, List.lookup]
  refine ⟨by unfold parse_operand; simp [h], by unfold parse_operand; simp [h],
          hbound, ?_⟩
  intro steps
  have hrun := run_lookup_preserved steps _ id st.nextId hbound
  exact ⟨hrun, parse_operand_bound _ id st.nextId hrun⟩

/-- Witness for C8: from the empty parser state, `%x` is unbound; after it
is introduced and further actions run, it still resolves to input `0`. -/
theorem c8_implicit_inputs_witness :
    ((⟨[], [], [], 0⟩ : PState).identifiers.lookup "%x" = none) ∧
    parse_operand ((parse_operand (⟨[], [], [], 0⟩ : PState)
        (.ident "%x")).1.run [.operand (.num 3), .instrReg "%r"])
      (.ident "%x") =
      ((parse_operand (⟨[], [], [], 0⟩ : PState) (.ident "%x")).1.run
        [.operand (.num 3), .instrReg "%r"], 0) := by
  refine ⟨by rfl, ?_⟩
  exact ((c8_implicit_inputs ⟨[], [], [], 0⟩ "%x" (by rfl)).2.2.2
    [.operand (.num 3), .instrReg "%r"]).2

theorem solverCheck_triple (sat : Query → Bool) (q1 q2 q3 : Query)
    (m1 m2 m3 : String) :
    solverCheck sat [(q1, m1), (q2, m2), (q3, m3)] =
      (if sat q1 then [m1] else []) ++ (if sat q2 then [m2] else []) ++
      (if sat q3 then [m3] else []) := by
  unfold solverCheck
  cases h1 : sat q1 <;> cases h2 : sat q2 <;> cases h3 : sat q3 <;>
    simp [h1, h2, h3, List.filterMap]

/-- C1 (amended): the refinement checker dispatches exactly three
universally quantified queries, in this order — `A.domain ∧ ¬B.domain`,
`A.domain ∧ A.non_poison ∧ ¬B.non_poison`, and `A.domain ∧ A.non_poison ∧
A.value ≠ B.value` — and each query the solver reports satisfiable
contributes exactly one error entry, with messages "Source is more defined
than target", "Target is more poisonous than source" and "value
mismatch". -/
theorem c1_refinement_checker (sat : Query → Bool) (gq : List QVar)
    (dom_a dom_b : Expr) (ap bp : ValTy) :
    check_refinement sat gq dom_a ap dom_b bp =
      ((if sat ⟨listUnion gq ap.qvars, .andE dom_a (.notE dom_b)⟩ then
          ["Source is more defined than target"] else []) ++
       (if sat ⟨listUnion gq ap.qvars,
            .andE dom_a (.andE ap.sv.non_poison (.notE bp.sv.non_poison))⟩ then
          ["Target is more poisonous than source"] else []) ++
       (if sat ⟨listUnion gq ap.qvars,
            .andE (.andE dom_a ap.sv.non_poison)
                  (.notE (.pred .eq ap.sv.value bp.sv.value))⟩ then
          ["value mismatch"] else []),
       [(⟨listUnion gq ap.qvars, .andE dom_a (.notE dom_b)⟩,
         "Source is more defined than target"),
        (⟨listUnion gq ap.qvars,
          .andE dom_a (.andE ap.sv.non_poison (.notE bp.sv.non_poison))⟩,
         "Target is more poisonous than source"),
        (⟨listUnion gq ap.qvars,
          .andE (.andE dom_a ap.sv.non_poison)
                (.notE (.pred .eq ap.sv.value bp.sv.value))⟩,
         "value mismatch")]) := by
  unfold check_refinement refinementQueries
  dsimp only
  rw [solverCheck_triple]
  rfl

/-- Counterexample to C1 as stated: when the solver reports all three
queries satisfiable, the third error entry is the lowercase "value
mismatch"; the string "Value mismatch" never appears. -/
theorem c1_refinement_checker_counterexample :
    (check_refinement satAllQ [] (.boolC true)
        ⟨⟨.var "x" 1, .boolC true⟩, []⟩ (.boolC true)
        ⟨⟨.var "y" 1, .boolC true⟩, []⟩).1 =
      ["Source is more defined than target",
       "Target is more poisonous than source", "value mismatch"] ∧
    "Value mismatch" ∉ (check_refinement satAllQ [] (.boolC true)
        ⟨⟨.var "x" 1, .boolC true⟩, []⟩ (.boolC true)
        ⟨⟨.var "y" 1, .boolC true⟩, []⟩).1 := by
  constructor
  · rfl
  · decide

/-- C2 (amended): the set universally quantified in each of the three
return-refinement queries is the union of the TARGET state's `quant_vars`
with the per-value quantifiers of the source return value; the source
state's `quant_vars` and the target value's per-value quantifiers
contribute only through those two sets. -/
theorem c2_quantified_vars (sat : Query → Bool) (A B : ExecState)
    (hA : A.returned = true) (hB : B.returned = true) :
    ((returnCheck sat A B).2.map (fun p => p.1.qvars) =
      [listUnion B.quantVars A.returnVal.qvars,
       listUnion B.quantVars A.returnVal.qvars,
       listUnion B.quantVars A.returnVal.qvars]) ∧
    ∀ v : QVar, v ∈ listUnion B.quantVars A.returnVal.qvars ↔
      (v ∈ B.quantVars ∨ v ∈ A.returnVal.qvars) := by
  constructor
  · unfold returnCheck
    simp only [hA, hB]
    unfold check_refinement refinementQueries
    simp
  · intro v
    unfold listUnion
    by_cases hv : v ∈ B.quantVars <;> simp [List.mem_filter, hv] <;> tauto

/-- Counterexample to C2 as stated: a source whose undefined value feeds
only an intermediate instruction has `("undef!0", 8)` among its state-level
`quant_vars`, yet none of the three dispatched refinement queries
quantifies it. -/
theorem c2_quantified_vars_counterexample :
    (Option.map (fun A => A.quantVars.contains ("undef!0", 8))
      (symExec undefSrcFn) = some true) ∧
    (Option.map
      (fun r => (!r.2.isEmpty) &&
        r.2.all (fun p => !(p.1.qvars.contains ("undef!0", 8))))
      (Transform.verify satNoQ ⟨"t", undefSrcFn, constTgtFn⟩ ⟨false⟩) =
      some true) := by
  constructor
  · rfl
  · rfl

/-- Witness for C2 at concrete executed states. -/
theorem c2_quantified_vars_witness :
    ((⟨[], [("u", 8)], true, .boolC true, ⟨⟨.bvC 8 0, .boolC true⟩, []⟩,
        .boolC true⟩ : ExecState).returned = true) ∧
    ((returnCheck satNoQ
        ⟨[], [], true, .boolC true, ⟨⟨.bvC 8 0, .boolC true⟩, []⟩, .boolC true⟩
        ⟨[], [("u", 8)], true, .boolC true, ⟨⟨.bvC 8 0, .boolC true⟩, []⟩,
         .boolC true⟩).2.map (fun p => p.1.qvars) =
      [[("u", 8)], [("u", 8)], [("u", 8)]]) := by
  refine ⟨rfl, ?_⟩
  exact (c2_quantified_vars satNoQ
    ⟨[], [], true, .boolC true, ⟨⟨.bvC 8 0, .boolC true⟩, []⟩, .boolC true⟩
    ⟨[], [("u", 8)], true, .boolC true, ⟨⟨.bvC 8 0, .boolC true⟩, []⟩,
     .boolC true⟩ rfl rfl).1

/-- C9: when exactly one of the two executed states recorded a return,
`Transform::verify` adds exactly one error — naming the side that returned
— and dispatches no refinement query; when neither returned, it adds no
error and dispatches nothing. -/
theorem c9_return_mismatch (sat : Query → Bool) (t : Transform)
    (opts : TransformVerifyOpts) (A B : ExecState)
    (hA : symExec t.src = some A) (hB : symExec t.tgt = some B)
    (hopts : opts.check_each_var = false) :
    (A.returned = true → B.returned = false →
      t.verify sat opts = some (["Source returns but target doesn't"], [])) ∧
    (A.returned = false → B.returned = true →
      t.verify sat opts = some (["Target returns but source doesn't"], [])) ∧
    (A.returned = false → B.returned = false →
      t.verify sat opts = some ([], [])) := by
  unfold Transform.verify returnCheck
  refine ⟨?_, ?_, ?_⟩ <;> intro h1 h2 <;>
    simp [hA, hB, hopts, h1, h2, Option.bind]

/-- Witness for C9: a returning source against an unreachable target. -/
theorem c9_return_mismatch_witness :
    Transform.verify satNoQ ⟨"w", constTgtFn, unreachFn⟩ ⟨false⟩ =
      some (["Source returns but target doesn't"], []) := by
  exact (c9_return_mismatch satNoQ ⟨"w", constTgtFn, unreachFn⟩ ⟨false⟩
    _ _ rfl rfl rfl).1 rfl rfl

theorem eval_width (σ : String → Nat) (e : Expr) (w v : Nat)
    (h : Expr.eval σ e = some (.bv w v)) : e.width = w := by
  induction e generalizing w v with
  | null => simp [Expr.eval] at h
  | boolC b => simp [Expr.eval] at h
  | bvC w' v' =>
      simp [Expr.eval] at h
      simp [Expr.width, h.1]
  | var n w' =>
      simp [Expr.eval] at h
      simp [Expr.width, h.1]
  | notE e ih =>
      rcases he : Expr.eval σ e with _ | (x | ⟨a, b⟩) <;>
        simp [Expr.eval, he] at h
  | andE a b iha ihb =>
      rcases ha : Expr.eval σ a with _ | (x | ⟨wa, va⟩) <;>
        rcases hb : Expr.eval σ b with _ | (y | ⟨wb, vb⟩) <;>
          simp [Expr.eval, ha, hb] at h
  | orE a b iha ihb =>
      rcases ha : Expr.eval σ a with _ | (x | ⟨wa, va⟩) <;>
        rcases hb : Expr.eval σ b with _ | (y | ⟨wb, vb⟩) <;>
          simp [Expr.eval, ha, hb] at h
  | bvop o a b iha ihb =>
      rcases ha : Expr.eval σ a with _ | (x | ⟨wa, va⟩) <;>
        rcases hb : Expr.eval σ b with _ | (y | ⟨wb, vb⟩) <;>
          simp [Expr.eval, ha, hb] at h
      rcases h with ⟨hw, _, _⟩
      subst hw
      simp [Expr.width, iha wa va ha]
      omega
  | pred p a b iha ihb =>
      rcases ha : Expr.eval σ a with _ | (x | ⟨wa, va⟩) <;>
        rcases hb : Expr.eval σ b with _ | (y | ⟨wb, vb⟩) <;>
          simp [Expr.eval, ha, hb] at h
  | iteE c t e ihc iht ihe =>
      rcases hc : Expr.eval σ c with _ | (x | ⟨wc, vc⟩) <;>
        rcases ht : Expr.eval σ t with _ | (y | ⟨wt, vt⟩) <;>
          rcases he : Expr.eval σ e with _ | (z | ⟨we, ve⟩) <;>
            simp [Expr.eval, hc, ht, he] at h
      rcases h with ⟨hw, _, _⟩
      subst hw
      simp [Expr.width, iht wt vt ht]
      omega

theorem eval_neE_bv (σ : String → Nat) (a b : Expr) (w x y : Nat)
    (ha : Expr.eval σ a = some (.bv w x))
    (hb : Expr.eval σ b = some (.bv w y)) :
    Expr.eval σ (neE a b) = some (.b (!(x == y))) := by
  unfold neE
  simp [Expr.eval, ha, hb, BvPred.eval]

theorem truthy_neE_bv (σ : String → Nat) (a b : Expr) (w x y : Nat)
    (ha : Expr.eval σ a = some (.bv w x))
    (hb : Expr.eval σ b = some (.bv w y)) :
    truthy σ (neE a b) ↔ x ≠ y := by
  unfold truthy
  rw [eval_neE_bv σ a b w x y ha hb]
  simp

theorem truthy_orE_bools (σ : String → Nat) (a b : Expr) (x y : Bool)
    (ha : Expr.eval σ a = some (.b x)) (hb : Expr.eval σ b = some (.b y)) :
    truthy σ (.orE a b) ↔ (x = true ∨ y = true) := by
  unfold truthy
  simp [Expr.eval, ha, hb]

theorem ofSInt_neg_one (w : Nat) (hw : 0 < w) : ofSInt w (-1) = 2 ^ w - 1 := by
  unfold ofSInt
  have h1 : (1 : Nat) ≤ 2 ^ w := Nat.one_le_two_pow
  have hn : ((2 ^ w : Nat) : Int) = (2 ^ w : Nat) := rfl
  have h2 : ((-1 : Int) % ((2 ^ w : Nat) : Int)) = ((2 ^ w : Nat) : Int) - 1 := by
    have hb : (0 : Int) < ((2 ^ w : Nat) : Int) := by exact_mod_cast h1
    have step : (-1 : Int) =
        (((2 ^ w : Nat) : Int) - 1) + ((2 ^ w : Nat) : Int) * (-1) := by ring
    rw [step, Int.add_mul_emod_self_left]
    exact Int.emod_eq_of_lt (by omega) (by omega)
  rw [h2]
  omega

theorem intMin_mod (w : Nat) (hw : 0 < w) : 2 ^ (w - 1) % 2 ^ w = 2 ^ (w - 1) := by
  have h : 2 ^ (w - 1) < 2 ^ w := Nat.pow_lt_pow_right one_lt_two (by omega)
  exact Nat.mod_eq_of_lt h

/-- C4: every constant's `StateValue` from `Constant::toSMT` has non-poison
the literal `true`; the UB contribution of a leaf constant is `true`, and
that of a constant binary operation is the conjunction of the operands' UB
predicates with the operator-specific conditions — for `UDIV` a non-zero
divisor, for `SDIV` additionally not `INT_MIN / -1`. -/
theorem c4_constant_smt :
    (∀ c : Constant, (Constant.toSMT c).1.non_poison = .boolC true) ∧
    (∀ (w : Nat) (v : Int), (Constant.toSMT (.intConst w v)).2 = .boolC true) ∧
    (∀ (n : String) (w : Nat), (Constant.toSMT (.base n w)).2 = .boolC true) ∧
    ((Constant.toSMT .fn).2 = .boolC true) ∧
    (∀ (op : CnstOp) (lhs rhs : Constant) (σ : String → Nat) (w va vb : Nat),
      0 < w →
      Expr.eval σ lhs.toSMT_cnst.1 = some (.bv w va) →
      Expr.eval σ rhs.toSMT_cnst.1 = some (.bv w vb) →
      (truthy σ (Constant.toSMT (.binop op lhs rhs)).2 ↔
        (truthy σ (Constant.toSMT lhs).2 ∧ truthy σ (Constant.toSMT rhs).2 ∧
         cnstOpUbCond op w va vb))) := by
  refine ⟨fun c => rfl, fun w v => rfl, fun n w => rfl, rfl, ?_⟩
  intro op lhs rhs σ w va vb hw hl hr
  have hwidth : rhs.toSMT_cnst.1.width = w := eval_width σ _ w vb hr
  have hzero : Expr.eval σ (mkUIntE 0 w) = some (.bv w 0) := by
    simp [mkUIntE, Expr.eval]
  have hmin : Expr.eval σ (intMinE w) = some (.bv w (2 ^ (w - 1))) := by
    simp [intMinE, Expr.eval, intMin_mod w hw]
  have hneg : Expr.eval σ (mkIntE (-1) w) = some (.bv w (2 ^ w - 1)) := by
    have h1 : (1 : Nat) ≤ 2 ^ w := Nat.one_le_two_pow
    have h2 : (2 ^ w - 1) % 2 ^ w = 2 ^ w - 1 := Nat.mod_eq_of_lt (by omega)
    simp [mkIntE, Expr.eval, ofSInt_neg_one w hw, h2]
  cases op with
  | add =>
      show truthy σ (.andE lhs.toSMT_cnst.2 rhs.toSMT_cnst.2) ↔ _
      rw [truthy_andE]
      simp [Constant.toSMT, cnstOpUbCond]
  | sub =>
      show truthy σ (.andE lhs.toSMT_cnst.2 rhs.toSMT_cnst.2) ↔ _
      rw [truthy_andE]
      simp [Constant.toSMT, cnstOpUbCond]
  | udiv =>
      show truthy σ
        (div_ub lhs.toSMT_cnst.1 rhs.toSMT_cnst.1
          (.andE lhs.toSMT_cnst.2 rhs.toSMT_cnst.2) false) ↔ _
      unfold div_ub
      rw [hwidth]
      simp only [Bool.false_eq_true, if_false]
      rw [truthy_andE, truthy_andE,
          truthy_neE_bv σ _ _ w vb 0 hr hzero]
      simp [Constant.toSMT, cnstOpUbCond, and_assoc]
  | sdiv =>
      show truthy σ
        (div_ub lhs.toSMT_cnst.1 rhs.toSMT_cnst.1
          (.andE lhs.toSMT_cnst.2 rhs.toSMT_cnst.2) true) ↔ _
      unfold div_ub
      rw [hwidth]
      simp only [if_true]
      rw [truthy_andE, truthy_andE, truthy_andE,
          truthy_neE_bv σ _ _ w vb 0 hr hzero,
          truthy_orE_bools σ _ _ _ _
            (eval_neE_bv σ _ _ w va (2 ^ (w - 1)) hl hmin)
            (eval_neE_bv σ _ _ w vb (2 ^ w - 1) hr hneg)]
      simp [Constant.toSMT, cnstOpUbCond, and_assoc]
      tauto

/-- Witness for C4 at `(a / b)` over 8-bit named constants with the model
assigning `2` everywhere. -/
theorem c4_constant_smt_witness :
    ((0 : Nat) < 8) ∧
    (Expr.eval (fun _ => 2) (Constant.toSMT_cnst (.base "a" 8)).1 =
      some (.bv 8 2)) ∧
    (truthy (fun _ => 2)
        (Constant.toSMT (.binop .sdiv (.base "a" 8) (.base "b" 8))).2 ↔
      (truthy (fun _ => 2) (Constant.toSMT (.base "a" 8)).2 ∧
       truthy (fun _ => 2) (Constant.toSMT (.base "b" 8)).2 ∧
       cnstOpUbCond .sdiv 8 2 2)) :=
  ⟨by decide, by decide,
   c4_constant_smt.2.2.2.2 .sdiv (.base "a" 8) (.base "b" 8) (fun _ => 2)
     8 2 2 (by decide) (by decide) (by decide)⟩

/-- The width a model assigns to an integer type's width term. -/
def bwVal (σ : String → Nat) (t : IntType) : Nat :=
  if t.defined then t.bitwidth % 2 ^ var_bw_bits
  else σ (t.opname ++ "_" ++ "bw") % 2 ^ var_bw_bits

theorem eval_sizeVar (σ : String → Nat) (t : IntType) :
    Expr.eval σ t.sizeVar = some (.bv var_bw_bits (bwVal σ t)) := by
  unfold IntType.sizeVar bwVal mkUIntE sizeVarOf typeAuxVar
  by_cases h : t.defined <;> simp [h, Expr.eval]

theorem eval_intEq (σ : String → Nat) (a b : IntType) :
    Expr.eval σ (IntType.eqT a b) =
      some (.b (bwVal σ a == bwVal σ b)) := by
  unfold IntType.eqT eqE
  simp [Expr.eval, eval_sizeVar, BvPred.eval]

theorem eval_typeIs (σ : String → Nat) (n : String) (c : Nat) :
    Expr.eval σ (typeIs n c) =
      some (.b (σ (n ++ "_" ++ "type") % 2 ^ var_type_bits ==
                c % 2 ^ var_type_bits)) := by
  unfold typeIs eqE typeVarOf typeAuxVar mkUIntE
  simp [Expr.eval, BvPred.eval]

theorem eval_ptrEq (σ : String → Nat) (n m : String) :
    Expr.eval σ (eqE (sizeVarOf n) (sizeVarOf m)) =
      some (.b (σ (n ++ "_" ++ "bw") % 2 ^ var_bw_bits ==
                σ (m ++ "_" ++ "bw") % 2 ^ var_bw_bits)) := by
  unfold eqE sizeVarOf typeAuxVar
  simp [Expr.eval, BvPred.eval]

theorem eval_typeVarEq (σ : String → Nat) (n m : String) :
    Expr.eval σ (eqE (typeVarOf n) (typeVarOf m)) =
      some (.b (σ (n ++ "_" ++ "type") % 2 ^ var_type_bits ==
                σ (m ++ "_" ++ "type") % 2 ^ var_type_bits)) := by
  unfold eqE typeVarOf typeAuxVar
  simp [Expr.eval, BvPred.eval]

theorem eval_boolC (σ : String → Nat) (b : Bool) :
    Expr.eval σ (.boolC b) = some (.b b) := rfl

theorem eval_andE_bools (σ : String → Nat) (a b : Expr) (x y : Bool)
    (ha : Expr.eval σ a = some (.b x)) (hb : Expr.eval σ b = some (.b y)) :
    Expr.eval σ (.andE a b) = some (.b (x && y)) := by
  simp [Expr.eval, ha, hb]

theorem eval_orE_bools (σ : String → Nat) (a b : Expr) (x y : Bool)
    (ha : Expr.eval σ a = some (.b x)) (hb : Expr.eval σ b = some (.b y)) :
    Expr.eval σ (.orE a b) = some (.b (x || y)) := by
  simp [Expr.eval, ha, hb]

theorem eval_variantEq_int (σ : String → Nat) (s r : SymbolicType) :
    Expr.eval σ (variantEq s r catInt) =
      some (.b (bwVal σ s.i == bwVal σ r.i)) := by
  unfold variantEq
  simp [eval_intEq]

theorem eval_variantEq_float (σ : String → Nat) (s r : SymbolicType) :
    Expr.eval σ (variantEq s r catFloat) = some (.b false) := by
  unfold variantEq
  simp [catFloat, catInt, catPtr, Expr.eval]

theorem eval_variantEq_ptr (σ : String → Nat) (s r : SymbolicType) :
    Expr.eval σ (variantEq s r catPtr) =
      some (.b (σ (s.opname ++ "_" ++ "bw") % 2 ^ var_bw_bits ==
                σ (r.opname ++ "_" ++ "bw") % 2 ^ var_bw_bits)) := by
  unfold variantEq
  simp [catPtr, catInt, eval_ptrEq]

theorem eval_variantEq_array (σ : String → Nat) (s r : SymbolicType) :
    Expr.eval σ (variantEq s r catArray) = some (.b false) := by
  unfold variantEq
  simp [catArray, catInt, catPtr, Expr.eval]

theorem eval_variantEq_vector (σ : String → Nat) (s r : SymbolicType) :
    Expr.eval σ (variantEq s r catVector) = some (.b false) := by
  unfold variantEq
  simp [catVector, catInt, catPtr, Expr.eval]

set_option maxHeartbeats 2000000 in
/-- C6 (amended): type equality reduces, for two concrete integer types, to
equality of their width terms; for a symbolic/concrete pair, to the
category test conjoined with equality to the matching concrete variant; and
for two symbolic types it is semantically the disjunction over the LEFT
operand's enabled categories of "both category variables equal the category
and the corresponding variants are equal" — the right operand's enabled
mask is not consulted. -/
theorem c6_type_equality :
    (∀ t1 t2 : IntType,
      Ty.eqT (.int t1) (.int t2) = eqE t1.sizeVar t2.sizeVar) ∧
    (∀ (t : IntType) (s : SymbolicType),
      Ty.eqT (.int t) (.sym s) = .andE (s.isCat catInt) (IntType.eqT s.i t) ∧
      Ty.eqT (.sym s) (.int t) = .andE (s.isCat catInt) (IntType.eqT s.i t)) ∧
    (∀ (s r : SymbolicType) (σ : String → Nat),
      truthy σ (Ty.eqT (.sym s) (.sym r)) ↔ truthy σ (symEqLeftSpec s r)) := by
  refine ⟨fun t1 t2 => rfl, fun t s => ⟨rfl, rfl⟩, ?_⟩
  intro s r σ
  unfold Ty.eqT SymbolicType.eqT symEqLeftSpec SymbolicType.isCat
  simp only [List.foldl]
  unfold truthy
  have hL :=
    eval_andE_bools σ _ _ _ _
      (eval_orE_bools σ _ _ _ _
        (eval_orE_bools σ _ _ _ _
          (eval_orE_bools σ _ _ _ _
            (eval_orE_bools σ _ _ _ _
              (eval_orE_bools σ _ _ _ _
                (eval_boolC σ false)
                (eval_andE_bools σ _ _ _ _
                  (eval_andE_bools σ _ _ _ _
                    (eval_boolC σ (decide (s.enabled &&& (1 <<< catInt) ≠ 0)))
                    (eval_typeIs σ s.opname catInt))
                  (eval_intEq σ s.i r.i)))
              (eval_andE_bools σ _ _ _ _
                (eval_andE_bools σ _ _ _ _
                  (eval_boolC σ (decide (s.enabled &&& (1 <<< catFloat) ≠ 0)))
                    (eval_typeIs σ s.opname catFloat))
                (eval_boolC σ false)))
            (eval_andE_bools σ _ _ _ _
              (eval_andE_bools σ _ _ _ _
                (eval_boolC σ (decide (s.enabled &&& (1 <<< catPtr) ≠ 0)))
                    (eval_typeIs σ s.opname catPtr))
              (eval_ptrEq σ s.opname r.opname)))
          (eval_andE_bools σ _ _ _ _
            (eval_andE_bools σ _ _ _ _
              (eval_boolC σ (decide (s.enabled &&& (1 <<< catArray) ≠ 0)))
                    (eval_typeIs σ s.opname catArray))
            (eval_boolC σ false)))
        (eval_andE_bools σ _ _ _ _
          (eval_andE_bools σ _ _ _ _
            (eval_boolC σ (decide (s.enabled &&& (1 <<< catVector) ≠ 0)))
                    (eval_typeIs σ s.opname catVector))
          (eval_boolC σ false)))
      (eval_typeVarEq σ s.opname r.opname)
  have hR :=
    eval_orE_bools σ _ _ _ _
      (eval_orE_bools σ _ _ _ _
        (eval_orE_bools σ _ _ _ _
          (eval_orE_bools σ _ _ _ _
            (eval_orE_bools σ _ _ _ _
              (eval_boolC σ false)
              (eval_andE_bools σ _ _ _ _ (eval_boolC σ (decide (s.enabled &&& (1 <<< catInt) ≠ 0)))
                (eval_andE_bools σ _ _ _ _
                  (eval_andE_bools σ _ _ _ _
                    (eval_typeIs σ s.opname catInt)
                    (eval_typeIs σ r.opname catInt))
                  (eval_variantEq_int σ s r))))
            (eval_andE_bools σ _ _ _ _ (eval_boolC σ (decide (s.enabled &&& (1 <<< catFloat) ≠ 0)))
              (eval_andE_bools σ _ _ _ _
                (eval_andE_bools σ _ _ _ _
                  (eval_typeIs σ s.opname catFloat)
                  (eval_typeIs σ r.opname catFloat))
                (eval_variantEq_float σ s r))))
          (eval_andE_bools σ _ _ _ _ (eval_boolC σ (decide (s.enabled &&& (1 <<< catPtr) ≠ 0)))
            (eval_andE_bools σ _ _ _ _
              (eval_andE_bools σ _ _ _ _
                (eval_typeIs σ s.opname catPtr)
                (eval_typeIs σ r.opname catPtr))
              (eval_variantEq_ptr σ s r))))
        (eval_andE_bools σ _ _ _ _ (eval_boolC σ (decide (s.enabled &&& (1 <<< catArray) ≠ 0)))
          (eval_andE_bools σ _ _ _ _
            (eval_andE_bools σ _ _ _ _
              (eval_typeIs σ s.opname catArray)
              (eval_typeIs σ r.opname catArray))
            (eval_variantEq_array σ s r))))
      (eval_andE_bools σ _ _ _ _ (eval_boolC σ (decide (s.enabled &&& (1 <<< catVector) ≠ 0)))
        (eval_andE_bools σ _ _ _ _
          (eval_andE_bools σ _ _ _ _
            (eval_typeIs σ s.opname catVector)
            (eval_typeIs σ r.opname catVector))
          (eval_variantEq_vector σ s r)))
  rw [hL, hR]
  simp only [Option.some.injEq, SmtVal.b.injEq, Bool.and_eq_true,
    Bool.or_eq_true, beq_iff_eq, decide_eq_true_eq, Bool.false_eq_true,
    false_or, and_true, and_false, or_false]
  by_cases e0 : s.enabled &&& (1 <<< catInt) ≠ 0 <;>
    by_cases e1 : s.enabled &&& (1 <<< catFloat) ≠ 0 <;>
      by_cases e2 : s.enabled &&& (1 <<< catPtr) ≠ 0 <;>
        by_cases e3 : s.enabled &&& (1 <<< catArray) ≠ 0 <;>
          by_cases e4 : s.enabled &&& (1 <<< catVector) ≠ 0 <;>
            (try simp only [e0, e1, e2, e3, e4, catInt, catFloat, catPtr,
               catArray, catVector, var_type_bits, var_bw_bits, true_and,
               false_and, and_true, and_false, or_false, false_or, not_true,
               not_false_iff, not_not]) <;>
              omega

/-- Counterexample to C6 as stated: with the left symbolic type enabling
only the integer category and the right only the float category, the
source's equality predicate is satisfiable (both category variables set to
the integer category) while the specification's disjunction over shared
categories is the constant `false`. -/
theorem c6_type_equality_counterexample :
    Expr.eval (fun _ => 0) (Ty.eqT (.sym symIntOnly) (.sym symFloatOnly)) =
      some (.b true) ∧
    Expr.eval (fun _ => 0) (symEqSharedSpec symIntOnly symFloatOnly) =
      some (.b false) :=
  ⟨rfl, rfl⟩

theorem lookup_append_isSome_left (m l : List (String × Instr)) (n : String)
    (h : (m.lookup n).isSome) : ((m ++ l).lookup n).isSome := by
  rw [List.lookup_append]
  rcases hm : m.lookup n with _ | v
  · rw [hm] at h
    simp at h
  · simp [Option.or]

theorem lookup_append_isSome_self (m : List (String × Instr)) (n : String)
    (i : Instr) : ((m ++ [(n, i)]).lookup n).isSome := by
  rw [List.lookup_append]
  rcases hm : m.lookup n with _ | v <;> simp [Option.or]

theorem emplaceStep_lookup_isSome (m : List (String × Instr)) (i : Instr)
    (n : String) (h : (m.lookup n).isSome) :
    ((emplaceStep m i).lookup n).isSome := by
  unfold emplaceStep
  by_cases hm : (m.lookup i.getName).isSome
  · rw [if_pos hm]
    exact h
  · rw [if_neg hm]
    exact lookup_append_isSome_left m _ n h

theorem emplaceStep_lookup_isSome_name (m : List (String × Instr))
    (i : Instr) : ((emplaceStep m i).lookup i.getName).isSome := by
  unfold emplaceStep
  by_cases hm : (m.lookup i.getName).isSome
  · rw [if_pos hm]
    exact hm
  · rw [if_neg hm]
    exact lookup_append_isSome_self m i.getName i

theorem emplaceVals_fold_lookup_isSome (is : List Instr) (n : String) :
    ∀ m : List (String × Instr),
      (n ∈ is.map Instr.getName ∨ (m.lookup n).isSome) →
      ((is.foldl emplaceStep m).lookup n).isSome := by
  induction is with
  | nil =>
      intro m h
      rcases h with h | h
      · simp at h
      · simpa using h
  | cons i rest ih =>
      intro m h
      rw [List.foldl_cons]
      rcases h with h | h
      · rw [List.map_cons, List.mem_cons] at h
        rcases h with h | h
        · subst h
          exact ih _ (Or.inr (emplaceStep_lookup_isSome_name m i))
        · exact ih _ (Or.inl h)
      · exact ih _ (Or.inr (emplaceStep_lookup_isSome m i n h))

theorem emplaceVals_lookup_isSome (is : List Instr) (n : String)
    (h : n ∈ is.map Instr.getName) : ((emplaceVals is).lookup n).isSome := by
  unfold emplaceVals
  exact emplaceVals_fold_lookup_isSome is n [] (Or.inl h)

theorem envInstrVal_of_mem (env : List (String × Bool × ValTy)) (n : String)
    (v : ValTy) (hnd : (env.map (fun e => e.1)).Nodup)
    (hm : (n, true, v) ∈ env) : envInstrVal env n = some v := by
  induction env with
  | nil => cases hm
  | cons e rest ih =>
      rw [List.map_cons, List.nodup_cons] at hnd
      rcases List.mem_cons.mp hm with rfl | hm'
      · unfold envInstrVal
        rw [List.find?_cons_of_pos _ (by simp)]
        simp
      · have hkey : n ∈ rest.map (fun e => e.1) :=
          List.mem_map.mpr ⟨(n, true, v), hm', rfl⟩
        have hne : e.1 ≠ n := fun he => hnd.1 (he ▸ hkey)
        unfold envInstrVal at ih ⊢
        rw [List.find?_cons_of_neg]
        · exact ih hnd.2 hm'
        · simp [hne]

theorem perVar_fold (sat : Query → Bool) (tgtSt : ExecState)
    (tgtVals : List (String × Instr)) (L : List (String × Bool × ValTy))
    (h : ∀ e ∈ L, (e.1.take 1 = "%" ∧ e.2.1 = true) →
      ((tgtVals.lookup e.1).isSome ∧
       envInstrVal tgtSt.env e.1 = some e.2.2 ∧
       (check_refinement sat tgtSt.quantVars (.boolC true) e.2.2
         (.boolC true) e.2.2).1 = [])) :
    ∀ acc : List String × List (Query × String),
      ∃ qs, L.foldlM (perVarStep sat tgtSt tgtVals) acc = some (acc.1, qs) := by
  induction L with
  | nil => exact fun acc => ⟨acc.2, rfl⟩
  | cons e L' ih =>
      intro acc
      rw [List.foldlM_cons]
      have h' : ∀ e ∈ L', (e.1.take 1 = "%" ∧ e.2.1 = true) →
          ((tgtVals.lookup e.1).isSome ∧
           envInstrVal tgtSt.env e.1 = some e.2.2 ∧
           (check_refinement sat tgtSt.quantVars (.boolC true) e.2.2
             (.boolC true) e.2.2).1 = []) :=
        fun x hx => h x (List.mem_cons_of_mem e hx)
      by_cases hc : e.1.take 1 = "%" ∧ e.2.1 = true
      · obtain ⟨hlk, henv, herr⟩ := h e (List.mem_cons_self e L') hc
        obtain ⟨i, hi⟩ := Option.isSome_iff_exists.mp hlk
        unfold perVarStep
        rw [if_pos hc, hi, henv]
        simp only [Option.some_bind]
        obtain ⟨qs, hq⟩ :=
          ih h' (acc.1 ++ (check_refinement sat tgtSt.quantVars (.boolC true)
            e.2.2 (.boolC true) e.2.2).1,
            acc.2 ++ (check_refinement sat tgtSt.quantVars (.boolC true)
            e.2.2 (.boolC true) e.2.2).2)
        refine ⟨qs, ?_⟩
        convert hq using 2
        rw [herr]
        simp
      · unfold perVarStep
        rw [if_neg hc]
        simp only [Option.some_bind]
        exact ih h' acc

/-- C3: verifying a well-formed function against itself produces no errors,
for every sound solver (one that only reports countermodels of satisfiable
queries) and in both verification modes. -/
theorem c3_reflexivity (sat : Query → Bool)
    (hsound : ∀ q, sat q = true → q.sat) (nm : String) (f : FunctionIR)
    (opts : TransformVerifyOpts) (hwf : wellFormed f = true) :
    ∃ qs, Transform.verify sat ⟨nm, f, f⟩ opts = some ([], qs) := by
  unfold wellFormed at hwf
  rcases hx : symExec f with _ | st
  · rw [hx] at hwf
    cases hwf
  · rw [hx] at hwf
    rw [Bool.and_eq_true] at hwf
    obtain ⟨hnd', hall'⟩ := hwf
    have hnd : (st.env.map (fun e => e.1)).Nodup := of_decide_eq_true hnd'
    have hall : ∀ e ∈ st.env, e.2.1 = true →
        e.1 ∈ f.instrs.map Instr.getName := by
      intro e he hb
      have h1 := List.all_eq_true.mp hall' e he
      rw [hb] at h1
      simpa using h1
    have hper : ∀ e ∈ st.env, (e.1.take 1 = "%" ∧ e.2.1 = true) →
        (((emplaceVals f.instrs).lookup e.1).isSome ∧
         envInstrVal st.env e.1 = some e.2.2 ∧
         (check_refinement sat st.quantVars (.boolC true) e.2.2
           (.boolC true) e.2.2).1 = []) := by
      intro e he hc
      refine ⟨emplaceVals_lookup_isSome _ _ (hall e he hc.2), ?_,
              check_refinement_refl_errs sat hsound _ _ _⟩
      rcases e with ⟨n, b, v⟩
      have hb : b = true := hc.2
      subst hb
      exact envInstrVal_of_mem st.env n v hnd he
    have hrc : (returnCheck sat st st).1 = [] := by
      unfold returnCheck
      rw [if_neg (by simp)]
      by_cases hr : st.returned = true
      · rw [if_pos hr]
        exact check_refinement_refl_errs sat hsound _ _ _
      · rw [if_neg hr]
    unfold Transform.verify
    dsimp only
    rw [hx]
    rcases opts with ⟨cev⟩
    cases cev
    · refine ⟨(returnCheck sat st st).2, ?_⟩
      simp [hrc]
      rw [← hrc]
    · obtain ⟨qs1, hq1⟩ :=
        perVar_fold sat st (emplaceVals f.instrs) st.env hper ([], [])
      have hq1' : perVarChecks sat st st (emplaceVals f.instrs) =
          some ([], qs1) := hq1
      refine ⟨qs1 ++ (returnCheck sat st st).2, ?_⟩
      simp [hq1', hrc]

/-- Witness for C3: reflexive verification of a small function with a
trivially sound solver, in per-variable mode. -/
theorem c3_reflexivity_witness :
    (∀ q, satNoQ q = true → q.sat) ∧ wellFormed addOneFn = true ∧
    ∃ qs, Transform.verify satNoQ ⟨"h", addOneFn, addOneFn⟩ ⟨true⟩ =
      some ([], qs) := by
  have hs : ∀ q, satNoQ q = true → q.sat := by
    intro q h
    simp [satNoQ] at h
  refine ⟨hs, by decide, ?_⟩
  exact c3_reflexivity satNoQ hs "h" addOneFn ⟨true⟩ (by decide)
